import Mathlib

/-!
Verification development for the audio-to-annotated-score alignment repository.

The Python sources are shallowly embedded:
* `Fraction` values become `ℚ`; Python `float`s rounded with `round(x, k)` are
  modelled as exact decimal rounding of the rational value with ties to even
  (CPython's rounding mode); `float.is_integer` becomes a denominator test.
* pandas `DataFrame`s become `Frame`s: an ordered list of column labels plus a
  list of row records (total maps from label to `Cell`); reads are only ever
  performed on labels present in `cols`.
* Python exceptions become `Except String`; division by zero, which raises in
  Python, is total in Lean (all claims constrain the relevant denominators).
-/

/-- Embedding of `_ts_beat_size` (src/make_timeline.py:75-78): the beat size of a
time signature `numerator/denominator` as a rational: numerator of the beat is 3
when the signature's numerator is a multiple of 3 greater than 3, else 1. -/
def _ts_beat_size (numerator denominator : ℕ) : ℚ :=
  (if numerator % 3 = 0 ∧ 3 < numerator then (3 : ℚ) else 1) / denominator

/-- Embedding of `ts_beat_size` (src/make_timeline.py:80-89). The Python function
parses the string `"n/d"`; the embedding receives the two parsed integers
directly. The `@cache` decorator is semantically transparent. -/
def ts_beat_size (n d : ℕ) : ℚ := _ts_beat_size n d

/-- Embedding of `onset2beat` (src/make_timeline.py:102-126) in its exact-rational
form (`beat_decimals=None`): `divmod(onset, size)` on `Fraction`s is floor
division, so `beat = ⌊onset/size⌋` and `remainder = onset - beat * size`; the
result is `beat + first_beat + remainder / size`. -/
def onset2beat (onset : ℚ) (n d : ℕ) (first_beat : ℚ) : ℚ :=
  let size := ts_beat_size n d
  let beat : ℤ := ⌊onset / size⌋
  let remainder := onset - beat * size
  beat + first_beat + remainder / size

/-- CPython's `round` on a value at distance exactly 1/2 from both neighbouring
integers rounds to the even one; this is the integer-valued rounding used to
model `round(float(x), beat_decimals)`. -/
def roundHalfEven (q : ℚ) : ℤ :=
  if q - ⌊q⌋ < 1 / 2 then ⌊q⌋
  else if 1 / 2 < q - ⌊q⌋ then ⌊q⌋ + 1
  else if ⌊q⌋ % 2 = 0 then ⌊q⌋ else ⌊q⌋ + 1

/-- Model of Python `round(float(x), decimals)` on an exact rational `x`:
round `x * 10^decimals` to the nearest integer (ties to even) and divide back.
The intermediate binary-float conversion of the Python code is modelled as
exact; the claims below only evaluate it far from representation boundaries. -/
def round_to_decimals (q : ℚ) (decimals : ℕ) : ℚ :=
  (roundHalfEven (q * 10 ^ decimals) : ℚ) / 10 ^ decimals

/-- Embedding of `onset2beat` with `beat_decimals` set (src/make_timeline.py:126):
the exact beat is computed and then rounded to `beat_decimals` decimals. -/
def onset2beat_rounded (onset : ℚ) (n d : ℕ) (beat_decimals : ℕ)
    (first_beat : ℚ) : ℚ :=
  round_to_decimals (onset2beat onset n d first_beat) beat_decimals

/-- Embedding of `float_is_integer` (src/make_timeline.py:128-133): on an actual
number `f.is_integer()` never raises, so the `except` branch is dead; a rational
is an integer iff its reduced denominator is 1. -/
def float_is_integer (q : ℚ) : Bool := q.den == 1

/-- Embedding of `timesig2n_beats` (src/make_timeline.py:136-141):
`Fraction(timesig)` is `n/d`; the beat count is `onset2beat(n/d, timesig,
first_beat=0)` and a `ValueError` is raised when it is not an integer. -/
def timesig2n_beats (n d : ℕ) : Except String ℤ :=
  let result := onset2beat ((n : ℚ) / d) n d 0
  if result.den = 1 then Except.ok result.num
  else Except.error "non-integer number of beats"

/-- A note row of the aligned-notes table, restricted to the fields the
downbeat classification of `aligned_notes2timeline` reads: the onset within the
measure (a fraction of a whole note) and the (parsed) time signature. -/
structure NoteRow where
  mn : ℕ
  mn_onset : ℚ
  timesig : ℕ × ℕ
deriving DecidableEq

/-- The per-row beat value computed by `aligned_notes2timeline`
(src/make_timeline.py:179-185): `onset2beat` applied row-wise via
`ms3.transform` with `first_beat=1` and `beat_decimals=3`. -/
def note_beat_float (r : NoteRow) : ℚ :=
  onset2beat_rounded r.mn_onset r.timesig.1 r.timesig.2 3 1

/-- The downbeat mask of `aligned_notes2timeline` (src/make_timeline.py:186):
per row, whether the rounded beat value is an integer. -/
def downbeat_mask (notes : List NoteRow) : List Bool :=
  notes.map (fun r => float_is_integer (note_beat_float r))

/-! ### TimelineBuilder: `interpolate_missing_beats` (src/make_timeline.py:144-175)

The input timeline is a list of rows with measure number, beat, real-time start
and time signature.  The embedding follows the `"mn"` (integer measure number)
branch of the code; the `"mn_playthrough"` string branch differs only in how the
anacrusis is detected (labels starting with `"0"`).  Rows produced by the
left-outer merge against the complete beat grid may lack a matching observed
row, which pandas represents with NaN; the embedding uses `Option`. -/

/-- An observed timeline row (the deduplicated output of the downbeat
filtering, src/make_timeline.py:195). -/
structure TLRow where
  mn : ℕ
  beat : ℕ
  start : ℚ
  timesig : ℕ × ℕ
deriving DecidableEq

/-- A row of the merged/interpolated timeline, where the beat (for an anacrusis
grid row), the start and the time signature may be missing (pandas NaN). -/
structure ORow where
  mn : ℕ
  beat : Option ℕ
  start : Option ℚ
  timesig : Option (ℕ × ℕ)
deriving DecidableEq

/-- An observed row viewed as a merged row (the early-return branch
src/make_timeline.py:167-168 returns the input table unchanged). -/
def toORow (r : TLRow) : ORow := ⟨r.mn, some r.beat, some r.start, some r.timesig⟩

/-- Append a key if it is not yet present (first-occurrence order). -/
def insertKey (ks : List ℕ) (k : ℕ) : List ℕ := if k ∈ ks then ks else ks ++ [k]

/-- The group keys of `tl.groupby(mn_column, sort=False)`
(src/make_timeline.py:146): distinct measure numbers in first-occurrence
order. -/
def groupKeys (tl : List TLRow) : List ℕ := tl.foldl (fun ks r => insertKey ks r.mn) []

/-- The rows of one measure group. -/
def groupRows (tl : List TLRow) (mn : ℕ) : List TLRow := tl.filter (fun r => r.mn == mn)

/-- The check `(gpb.timesig.nunique() > 1).any()` (src/make_timeline.py:148):
every group must reference at most one distinct time signature. -/
def timesigsConsistent (tl : List TLRow) : Bool :=
  (groupKeys tl).all (fun k => (((groupRows tl k).map (fun r => r.timesig)).dedup).length ≤ 1)

/-- `mn2timesig` (src/make_timeline.py:151): the group's unique time signature,
taken as the first occurrence (`unique()[0]`). -/
def groupTimesig (tl : List TLRow) (mn : ℕ) : ℕ × ℕ :=
  ((groupRows tl mn).map (fun r => r.timesig)).headD (1, 1)

/-- `mn2present_beats` (src/make_timeline.py:153): the set of beats observed in
a measure. -/
def presentBeats (tl : List TLRow) (mn : ℕ) : Finset ℕ :=
  ((groupRows tl mn).map (fun r => r.beat)).toFinset

/-- `mn2n_present_beats` (src/make_timeline.py:154). -/
def nPresentBeats (tl : List TLRow) (mn : ℕ) : ℕ := (presentBeats tl mn).card

/-- `mn2max_present_beat` (src/make_timeline.py:155); groups are nonempty, so
the `sup` default 0 is never the value Python's `max` would raise on. -/
def maxPresentBeat (tl : List TLRow) (mn : ℕ) : ℕ := (presentBeats tl mn).sup id

/-- Whether `timesig2n_beats` succeeds on every group's time signature
(`mn2n_beats_timesig`, src/make_timeline.py:152 propagates its `ValueError`). -/
def nBeatsOk (tl : List TLRow) : Bool :=
  (groupKeys tl).all (fun k =>
    match timesig2n_beats (groupTimesig tl k).1 (groupTimesig tl k).2 with
    | Except.ok _ => true
    | Except.error _ => false)

/-- The beat count of a group's time signature (total helper; meaningful when
`nBeatsOk` holds). -/
def nBeatsTimesig (tl : List TLRow) (mn : ℕ) : ℤ :=
  ((timesig2n_beats (groupTimesig tl mn).1 (groupTimesig tl mn).2).toOption).getD 0

/-- `np.maximum(mn2n_beats_timesig, mn2max_present_beat)`
(src/make_timeline.py:156), before the anacrusis correction. -/
def n_expected_beats_pre (tl : List TLRow) (mn : ℕ) : ℤ :=
  max (nBeatsTimesig tl mn) (maxPresentBeat tl mn : ℤ)

/-- `mn2n_expected_beats` after `mn2n_expected_beats[anacrusis_mask] = 0`
(src/make_timeline.py:157-164): the anacrusis measure 0 is forced to 0. -/
def n_expected_beats (tl : List TLRow) (mn : ℕ) : ℤ :=
  if mn = 0 then 0 else n_expected_beats_pre tl mn

/-- `mn2n_missing_beats` (src/make_timeline.py:165). -/
def n_missing_beats (tl : List TLRow) (mn : ℕ) : ℤ :=
  n_expected_beats tl mn - (nPresentBeats tl mn : ℤ)

/-- `to_be_corrected_mask.any()` (src/make_timeline.py:166-167). -/
def needsCorrection (tl : List TLRow) : Bool :=
  (groupKeys tl).any (fun k => decide (0 < n_missing_beats tl k))

/-- `set(range(1, n + 1))` exploded (src/make_timeline.py:169-171): for a
positive expected count the beats 1..n in increasing order (CPython small-int
set iteration order); for a non-positive count, pandas `explode` of the empty
set yields a single NaN entry. -/
def gridBeats (n : ℤ) : List (Option ℕ) :=
  if n ≤ 0 then [none] else (List.range n.toNat).map (fun i => some (i + 1))

/-- `mn2complete_beatgrid` (src/make_timeline.py:169-171): one `(mn, beat)` pair
per expected beat, in group order. -/
def completeBeatGrid (tl : List TLRow) : List (ℕ × Option ℕ) :=
  (groupKeys tl).flatMap (fun k =>
    (gridBeats (n_expected_beats tl k)).map (fun b => (k, b)))

/-- `pd.merge(mn2complete_beatgrid, tl, how="left", on=[mn, "beat"])`
(src/make_timeline.py:172-173): every grid row is kept; matching observed rows
contribute their remaining columns, an unmatched grid row gets NaN for them. -/
def mergeLeftTimeline (tl : List TLRow) (grid : List (ℕ × Option ℕ)) : List ORow :=
  grid.flatMap (fun kb =>
    let hits := tl.filter (fun r => r.mn == kb.1 && some r.beat == kb.2)
    if hits.isEmpty then [⟨kb.1, kb.2, none, none⟩]
    else hits.map (fun r => ⟨kb.1, kb.2, some r.start, some r.timesig⟩))

/-- The merged (pre-interpolation) rows. -/
def mergedRows (tl : List TLRow) : List ORow := mergeLeftTimeline tl (completeBeatGrid tl)

/-- The most recent non-missing entry at an index `≤ i` (for pandas linear
interpolation). -/
def lastSomeLE (xs : List (Option ℚ)) : ℕ → Option (ℕ × ℚ)
  | 0 => (xs.getD 0 none).map (fun v => (0, v))
  | i + 1 =>
    match xs.getD (i + 1) none with
    | some v => some (i + 1, v)
    | none => lastSomeLE xs i

/-- First non-missing entry of a list, with its index. -/
def firstSomeIn : List (Option ℚ) → Option (ℕ × ℚ)
  | [] => none
  | some v :: _ => some (0, v)
  | none :: rest => (firstSomeIn rest).map (fun p => (p.1 + 1, p.2))

/-- The next non-missing entry at an index `> i`. -/
def nextSomeGT (xs : List (Option ℚ)) (i : ℕ) : Option (ℕ × ℚ) :=
  (firstSomeIn (xs.drop (i + 1))).map (fun p => (i + 1 + p.1, p.2))

/-- The value `Series.interpolate(method='linear')` produces at position `i`:
observed values are kept; a missing value with observed neighbours on both
sides is linearly interpolated by position; missing values after the last
observation repeat it; missing values before the first observation stay
missing. -/
def interpValue (xs : List (Option ℚ)) (i : ℕ) : Option ℚ :=
  match xs.getD i none with
  | some v => some v
  | none =>
    match lastSomeLE xs i, nextSomeGT xs i with
    | none, _ => none
    | some pv, none => some pv.2
    | some pv, some nw =>
      some (pv.2 + ((i : ℚ) - pv.1) * (nw.2 - pv.2) / ((nw.1 : ℚ) - pv.1))

/-- `result.start.interpolate(method='linear')` (src/make_timeline.py:174). -/
def seriesInterpolate (xs : List (Option ℚ)) : List (Option ℚ) :=
  (List.range xs.length).map (fun i => interpValue xs i)

/-- The merged rows with the start column replaced by its interpolation. -/
def interpolatedRows (tl : List TLRow) : List ORow :=
  List.zipWith (fun (r : ORow) s => { r with start := s })
    (mergedRows tl) (seriesInterpolate ((mergedRows tl).map (fun r => r.start)))

/-- Embedding of `interpolate_missing_beats` (src/make_timeline.py:144-175):
raise on inconsistent time signatures, propagate `timesig2n_beats` errors,
return the input unchanged when no measure misses a beat, otherwise rebuild the
table from the complete beat grid and interpolate the missing starts. -/
def interpolate_missing_beats (tl : List TLRow) : Except String (List ORow) :=
  if timesigsConsistent tl = false then Except.error "Multiple timesigs found"
  else if nBeatsOk tl = false then Except.error "non-integer number of beats"
  else if needsCorrection tl = false then Except.ok (tl.map toORow)
  else Except.ok (interpolatedRows tl)

/-! ### LabelMerger and back-projection: frames (src/utils.py)

A pandas `DataFrame` is modelled as an ordered list of column labels together
with a list of row records; a row record is a total map from label to cell, and
only labels listed in `cols` are ever read.  All inputs used below have
pairwise-distinct column labels, so the `_x`/`_y` suffixing pandas would apply
to colliding labels never triggers and is not modelled.  Attribute assignment
on a frame (`df.end = ...`) updates the column when it exists and otherwise
only creates a Python instance attribute, leaving the frame's columns
unchanged; `setColIfExists` captures exactly the frame-observable effect. -/

/-- A cell of a data frame: a number, a string, or missing (NaN). -/
inductive Cell where
  | num (q : ℚ)
  | str (s : String)
  | null
deriving DecidableEq

/-- Whether a cell is missing. -/
def Cell.isNull : Cell → Bool
  | Cell.null => true
  | _ => false

/-- The all-missing row record used for padding in outer merges. -/
def emptyRow : String → Cell := fun _ => Cell.null

/-- A data frame: ordered column labels and row records. -/
structure Frame where
  cols : List String
  rows : List (String → Cell)

/-- Column-presence test (`name in df.columns`). -/
def hasCol (cols : List String) (n : String) : Bool := cols.any (fun c => c == n)

/-- Read one column as a list of cells (`df[name]` for a present name). -/
def getCol (f : Frame) (n : String) : List Cell := f.rows.map (fun r => r n)

/-- `df.drop(columns=names)`: removes the named columns, `KeyError` when one is
absent. -/
def dropColumns (f : Frame) (names : List String) : Except String Frame :=
  if names.all (fun n => hasCol f.cols n) then
    Except.ok { cols := f.cols.filter (fun c => !(names.contains c)), rows := f.rows }
  else Except.error "KeyError"

/-- `df[names]`: column selection, `KeyError` when one is absent. -/
def selectCols (f : Frame) (names : List String) : Except String Frame :=
  if names.all (fun n => hasCol f.cols n) then
    Except.ok { cols := names, rows := f.rows }
  else Except.error "KeyError"

/-- `df.rename(columns=\x7bold: new\x7d)`. -/
def renameCol (f : Frame) (old new : String) : Frame :=
  { cols := f.cols.map (fun c => if c = old then new else c),
    rows := f.rows.map (fun r => fun n => if n = new then r old else r n) }

/-- `pd.merge(left, right, how="outer", left_index=True, right_index=True)` on
two frames carrying default range indexes: rows are matched positionally and
the shorter side is padded with all-missing rows. -/
def mergeOuterIndex (l r : Frame) : Frame :=
  { cols := l.cols ++ r.cols,
    rows := (List.range (max l.rows.length r.rows.length)).map (fun i =>
      fun n =>
        if hasCol l.cols n then (l.rows.getD i emptyRow) n
        else if hasCol r.cols n then (r.rows.getD i emptyRow) n
        else Cell.null) }

/-- `pd.concat([l, r], axis=1)` for frames with default range indexes: the same
positional alignment as the outer index merge. -/
def concat_axis1 (l r : Frame) : Frame := mergeOuterIndex l r

/-- `df.dropna(subset=name)`: keep the rows whose cell in the named column is
not missing; `KeyError` when the column is absent. -/
def dropnaSubset (f : Frame) (n : String) : Except String Frame :=
  if hasCol f.cols n then
    Except.ok { cols := f.cols, rows := f.rows.filter (fun r => !(Cell.isNull (r n))) }
  else Except.error "KeyError"

/-- The deduplication key of a row for `drop_duplicates(subset=...)`. -/
def rowKey (subset : List String) (r : String → Cell) : List Cell :=
  subset.map (fun n => r n)

/-- Keep the first occurrence of each key (`drop_duplicates` keeps the first
duplicate; pandas treats NaN keys as equal, as does `Cell.null` here). -/
def keepFirstAux {α κ : Type} [DecidableEq κ] (key : α → κ) (seen : List κ) :
    List α → List α
  | [] => []
  | a :: as =>
    if key a ∈ seen then keepFirstAux key seen as
    else a :: keepFirstAux key (key a :: seen) as

/-- `df.drop_duplicates(subset=subset)`; `KeyError` when a subset column is
absent. -/
def dropDuplicatesSubset (f : Frame) (subset : List String) : Except String Frame :=
  if subset.all (fun n => hasCol f.cols n) then
    Except.ok { cols := f.cols, rows := keepFirstAux (rowKey subset) [] f.rows }
  else Except.error "KeyError"

/-- Attribute assignment `df.name = vals`: updates the column when it exists;
otherwise pandas only sets an instance attribute and the frame is unchanged. -/
def setColIfExists (f : Frame) (n : String) (vals : List Cell) : Frame :=
  if hasCol f.cols n then
    { cols := f.cols,
      rows := (List.range f.rows.length).map (fun i =>
        fun m => if m = n then vals.getD i Cell.null else (f.rows.getD i emptyRow) m) }
  else f

/-- `Series.shift(-1)`: drop the first value, append a missing one. -/
def shiftNeg1 (xs : List Cell) : List Cell :=
  match xs with
  | [] => []
  | _ :: _ => xs.drop 1 ++ [Cell.null]

/-- `Series.fillna(v)`: replace every missing cell by the number `v`. -/
def fillnaCells (xs : List Cell) (v : ℚ) : List Cell :=
  xs.map (fun c => if Cell.isNull c then Cell.num v else c)

/-- Element-wise subtraction of two cells; any missing operand propagates. -/
def cellSub : Cell → Cell → Cell
  | Cell.num a, Cell.num b => Cell.num (a - b)
  | _, _ => Cell.null

/-- Embedding of `update_duration_and_end_from_start` (src/utils.py:243-245):
`df.end = df.start.shift(-1).fillna(last_end)` then
`df.duration_seconds = df.end - df.start`.  When `"end"` (resp.
`"duration_seconds"`) is not a column of the frame, the attribute assignment
does not change the frame; the intermediate attribute value Python would read
back has no frame-observable effect either way. -/
def update_duration_and_end_from_start (f : Frame) (last_end : ℚ) : Frame :=
  let newEnd := fillnaCells (shiftNeg1 (getCol f "start")) last_end
  let f1 := setColIfExists f "end" newEnd
  let newDur := List.zipWith cellSub (getCol f1 "end") (getCol f1 "start")
  setColIfExists f1 "duration_seconds" newDur

/-- The duplicate columns dropped from the label side (src/utils.py:168). -/
def duplicate_columns : List String :=
  ["start", "end", "mc_playthrough", "mn_playthrough", "quarterbeats_all_endings"]

/-- The note-related columns dropped in `'labels'` mode (src/utils.py:192-194).
The Python source juxtaposes the string literals `'gracenote'` and `'tied'`
without a comma, so the list actually contains the single entry
`"gracenotetied"`. -/
def notes_related_columns : List String :=
  ["staff", "voice", "duration", "nominal_duration", "scalar", "gracenotetied",
   "tpc", "midi", "chord_id"]

/-- Embedding of `align_warped_notes_labels` (src/utils.py:139-240): merge the
warped annotations with the pre-merged notes-with-labels table positionally,
per mode; in `'compact'` and `'labels'` mode drop unlabeled rows and
deduplicate on `(start, label)`; finally run
`update_duration_and_end_from_start` with the audio duration. -/
def align_warped_notes_labels (warped extended : Frame) (last_end : ℚ)
    (mode : String) : Except String Frame :=
  if mode = "compact" then do
    let l ← dropColumns warped ["velocity", "instrument", "duration", "pitch", "end"]
    let r ← selectCols extended ["label"]
    let merged := mergeOuterIndex l r
    let d1 ← dropnaSubset merged "label"
    let d2 ← dropDuplicatesSubset d1 ["start", "label"]
    Except.ok (update_duration_and_end_from_start d2 last_end)
  else if mode = "labels" then do
    let drop_cols := (notes_related_columns ++ duplicate_columns).filter
      (fun c => hasCol extended.cols c)
    let l0 ← dropColumns warped ["velocity", "instrument", "pitch"]
    let l := renameCol l0 "duration" "duration_seconds"
    let r ← dropColumns extended drop_cols
    let merged := mergeOuterIndex l r
    let d1 ← dropnaSubset merged "label"
    let d2 ← dropDuplicatesSubset d1 ["start", "label"]
    Except.ok (update_duration_and_end_from_start d2 last_end)
  else if mode = "extended" then do
    let drop_cols := duplicate_columns.filter (fun c => hasCol extended.cols c)
    let l0 ← dropColumns warped ["velocity", "instrument", "pitch"]
    let l := renameCol l0 "duration" "duration_time"
    let r ← dropColumns extended drop_cols
    let merged := mergeOuterIndex l r
    Except.ok (update_duration_and_end_from_start merged last_end)
  else Except.error "mode should be either compact, labels or extended"

/-- Embedding of `get_original_notes_warped` (src/utils.py:536-547): when the
original notes table already has a `start` column, warn (flag `true`) and
return it unchanged; otherwise assert that the original `midi` column equals
the warped `pitch` column (`AssertionError` on mismatch, modelled as
`Except.error`) and concatenate the warped `start`/`end` columns onto the
original table.  Attribute access on a missing `midi`/`pitch` column would
raise `AttributeError` in Python and is modelled as an error as well. -/
def get_original_notes_warped (notes warped : Frame) :
    Except String (Bool × Frame) :=
  if hasCol notes.cols "start" then Except.ok (true, notes)
  else if !(hasCol notes.cols "midi") then Except.error "AttributeError"
  else if !(hasCol warped.cols "pitch") then Except.error "AttributeError"
  else if getCol notes "midi" = getCol warped "pitch" then do
    let sel ← selectCols warped ["start", "end"]
    Except.ok (false, concat_axis1 notes sel)
  else Except.error "MIDI values do not match"

/-! ### Concrete instances used by counterexamples and witnesses -/

/-- A timeline with a nonempty anacrusis measure 0 and a measure 1 that misses
beats 2 and 4 of its 4/4 signature. -/
def tlC2 : List TLRow :=
  [⟨0, 1, 0, (4, 4)⟩, ⟨1, 1, 10, (4, 4)⟩, ⟨1, 3, 12, (4, 4)⟩]

/-- The value `interpolate_missing_beats` computes on `tlC2`: the observed
measure-0 row is gone, replaced by a single row with a missing beat. -/
def outC2 : List ORow :=
  [⟨0, none, none, none⟩,
   ⟨1, some 1, some 10, some (4, 4)⟩,
   ⟨1, some 2, some 11, none⟩,
   ⟨1, some 3, some 12, some (4, 4)⟩,
   ⟨1, some 4, some 12, none⟩]

/-- A complete one-measure 4/4 timeline: every beat 1..4 is observed. -/
def tlC7 : List TLRow :=
  [⟨1, 1, 0, (4, 4)⟩, ⟨1, 2, 1, (4, 4)⟩, ⟨1, 3, 2, (4, 4)⟩, ⟨1, 4, 3, (4, 4)⟩]

/-- The canonical column schema of the warped annotation table produced by
`corpus_to_df_musical_time` / `warp_annotations` (src/utils.py:63-101,337-342). -/
def warped_schema : List String :=
  ["start", "duration", "pitch", "end", "velocity", "instrument"]

/-- A representative column schema of the pre-merged notes-with-labels table
(`align_corpus_notes_and_labels`, src/utils.py:103-137): quarterbeats key,
note fields and the label column. -/
def extended_schema : List String :=
  ["quarterbeats", "duration_qb", "midi", "label"]

/-- One warped annotation row: start 2, duration 5, pitch 60, end 7. -/
def wRow1 : String → Cell := fun n =>
  if n = "start" then Cell.num 2
  else if n = "duration" then Cell.num 5
  else if n = "pitch" then Cell.num 60
  else if n = "end" then Cell.num 7
  else if n = "velocity" then Cell.num 1
  else if n = "instrument" then Cell.str "piano"
  else Cell.null

/-- One notes-with-labels row carrying the label "I". -/
def eRow1 : String → Cell := fun n =>
  if n = "quarterbeats" then Cell.num 1
  else if n = "duration_qb" then Cell.num 4
  else if n = "midi" then Cell.num 60
  else if n = "label" then Cell.str "I"
  else Cell.null

/-- A one-row warped annotation frame. -/
def warpedC3 : Frame := ⟨warped_schema, [wRow1]⟩

/-- A one-row notes-with-labels frame. -/
def extendedC3 : Frame := ⟨extended_schema, [eRow1]⟩

/-- An original notes frame without a prior `start` column, with `midi` 60. -/
def notesC4 : Frame := ⟨["mn", "midi"], [fun n => if n = "midi" then Cell.num 60 else Cell.num 1]⟩

/-- A warped frame whose pitch column (62) disagrees with `notesC4`'s midi
column (60), as after a row shuffle. -/
def warpedC4 : Frame :=
  ⟨warped_schema, [fun n => if n = "pitch" then Cell.num 62 else Cell.num 0]⟩

/-- An original notes frame that already carries a `start` column. -/
def notesC5 : Frame :=
  ⟨["midi", "start"], [fun n => if n = "midi" then Cell.num 60 else Cell.num 3]⟩

/-! ### Theorems -/

theorem ts_beat_size_ne_zero (n d : ℕ) (hd : 0 < d) : ts_beat_size n d ≠ 0 := by
  have hd0 : (d : ℚ) ≠ 0 := Nat.cast_ne_zero.mpr hd.ne'
  unfold ts_beat_size _ts_beat_size
  split <;> positivity

theorem onset2beat_eq_div (o : ℚ) (n d : ℕ) (fb : ℚ)
    (h : ts_beat_size n d ≠ 0) :
    onset2beat o n d fb = o / ts_beat_size n d + fb := by
  unfold onset2beat
  field_simp
  ring

/-- C6: for every time signature with positive numerator and denominator, the
beat size is `3/d` exactly when the numerator is a multiple of 3 greater
than 3, and `1/d` otherwise. -/
theorem c6_beat_size (n d : ℕ) (hn : 0 < n) (hd : 0 < d) :
    (ts_beat_size n d = 3 / d ↔ n % 3 = 0 ∧ 3 < n) ∧
    (¬(n % 3 = 0 ∧ 3 < n) → ts_beat_size n d = 1 / d) := by
  have hd0 : (d : ℚ) ≠ 0 := Nat.cast_ne_zero.mpr hd.ne'
  refine ⟨⟨fun h => ?_, fun h => ?_⟩, fun h => ?_⟩
  · by_contra hc
    unfold ts_beat_size _ts_beat_size at h
    rw [if_neg hc] at h
    rw [div_eq_div_iff hd0 hd0] at h
    have hzero : (d : ℚ) = 0 := by linarith
    exact hd0 hzero
  · unfold ts_beat_size _ts_beat_size
    rw [if_pos h]
  · unfold ts_beat_size _ts_beat_size
    rw [if_neg h]

/-- Witness for C6 at the compound signature 6/8. -/
theorem c6_beat_size_witness :
    (0 < 6 ∧ 0 < 8) ∧
    (ts_beat_size 6 8 = 3 / 8 ↔ 6 % 3 = 0 ∧ 3 < 6) ∧
    (¬(6 % 3 = 0 ∧ 3 < 6) → ts_beat_size 6 8 = 1 / 8) := by
  refine ⟨⟨by norm_num, by norm_num⟩, ?_⟩
  have h := c6_beat_size 6 8 (by norm_num) (by norm_num)
  exact_mod_cast h

theorem timesig2n_beats_eval (n d : ℕ) (hd : 0 < d) :
    timesig2n_beats n d =
      Except.ok (if n % 3 = 0 ∧ 3 < n then (n : ℤ) / 3 else (n : ℤ)) := by
  have hs := ts_beat_size_ne_zero n d hd
  have hd0 : (d : ℚ) ≠ 0 := Nat.cast_ne_zero.mpr hd.ne'
  unfold timesig2n_beats
  rw [onset2beat_eq_div _ _ _ _ hs]
  by_cases hc : n % 3 = 0 ∧ 3 < n
  · obtain ⟨m, hm⟩ : 3 ∣ n := Nat.dvd_of_mod_eq_zero hc.1
    have hval : (n : ℚ) / d / ts_beat_size n d + 0 = (m : ℚ) := by
      unfold ts_beat_size _ts_beat_size
      rw [if_pos hc]
      subst hm
      push_cast
      field_simp
    rw [hval, if_pos hc]
    have hq : ((m : ℚ)).den = 1 := Rat.den_natCast m
    rw [if_pos hq]
    have hnum : ((m : ℚ)).num = (m : ℤ) := Rat.num_natCast m
    have hdiv : (n : ℤ) / 3 = (m : ℤ) := by
      subst hm
      push_cast
      omega
    rw [hnum, hdiv]
  · have hval : (n : ℚ) / d / ts_beat_size n d + 0 = (n : ℚ) := by
      unfold ts_beat_size _ts_beat_size
      rw [if_neg hc]
      field_simp
    rw [hval, if_neg hc]
    rw [if_pos (Rat.den_natCast n)]
    rw [Rat.num_natCast n]

/-- C10: for every time signature with positive numerator and denominator, the
beat count computed by `timesig2n_beats` is an integer (`n/3` in compound, `n`
in simple time), so the non-integer error branch is unreachable and the
function returns normally. -/
theorem c10_n_beats_integer (n d : ℕ) (hn : 0 < n) (hd : 0 < d) :
    timesig2n_beats n d =
      Except.ok (if n % 3 = 0 ∧ 3 < n then (n : ℤ) / 3 else (n : ℤ)) :=
  timesig2n_beats_eval n d hd

/-- Evaluation of `timesig2n_beats` at the 4/4 signature. -/
theorem timesig2n_beats_44 : timesig2n_beats 4 4 = Except.ok 4 := by
  rw [timesig2n_beats_eval 4 4 (by norm_num)]
  norm_num

/-- Witness for C10 at 6/8 (compound: 2 beats) discharging both hypotheses. -/
theorem c10_n_beats_integer_witness :
    (0 < 6 ∧ 0 < 8) ∧ timesig2n_beats 6 8 = Except.ok 2 := by
  refine ⟨⟨by norm_num, by norm_num⟩, ?_⟩
  have h := c10_n_beats_integer 6 8 (by norm_num) (by norm_num)
  simpa using h


theorem roundHalfEven_close (x : ℚ) : |x - roundHalfEven x| ≤ 1 / 2 := by
  have h1 : (⌊x⌋ : ℚ) ≤ x := Int.floor_le x
  have h2 : x < ⌊x⌋ + 1 := Int.lt_floor_add_one x
  unfold roundHalfEven
  split_ifs with ha hb hc <;> rw [abs_le] <;> push_cast <;> constructor <;> linarith

theorem rat_den_one_iff (q : ℚ) : q.den = 1 ↔ ∃ z : ℤ, q = (z : ℚ) := by
  constructor
  · intro h
    refine ⟨q.num, ?_⟩
    conv_lhs => rw [← Rat.num_div_den q]
    rw [h]
    simp
  · rintro ⟨z, rfl⟩
    exact Rat.den_intCast z

theorem roundHalfEven_1000_iff (x : ℚ) :
    (∃ k : ℤ, roundHalfEven x = 1000 * k) ↔ ∃ k : ℤ, |x - 1000 * k| ≤ 1 / 2 := by
  constructor
  · rintro ⟨k, hk⟩
    refine ⟨k, ?_⟩
    have h := roundHalfEven_close x
    rw [hk] at h
    push_cast at h
    exact h
  · rintro ⟨k, hk⟩
    rw [abs_le] at hk
    have h1 : (⌊x⌋ : ℚ) ≤ x := Int.floor_le x
    have h2 : x < ⌊x⌋ + 1 := Int.lt_floor_add_one x
    have hub : 1000 * k ≤ ⌊x⌋ + 1 := by
      have h3 : (1000 * (k : ℚ)) < (⌊x⌋ : ℚ) + 2 := by linarith [hk.1]
      have h4 : (1000 * k : ℤ) < ⌊x⌋ + 2 := by exact_mod_cast h3
      omega
    have hlb : ⌊x⌋ ≤ 1000 * k := by
      have h3 : (⌊x⌋ : ℚ) - 1 < 1000 * (k : ℚ) := by linarith [hk.2]
      have h4 : (⌊x⌋ - 1 : ℤ) < 1000 * k := by exact_mod_cast h3
      omega
    unfold roundHalfEven
    split_ifs with ha hb hc
    · rcases (by omega : 1000 * k = ⌊x⌋ ∨ 1000 * k = ⌊x⌋ + 1) with h | h
      · exact ⟨k, by omega⟩
      · exfalso
        have h5 : (1000 * (k : ℚ)) = (⌊x⌋ : ℚ) + 1 := by exact_mod_cast h
        linarith [hk.1]
    · rcases (by omega : 1000 * k = ⌊x⌋ ∨ 1000 * k = ⌊x⌋ + 1) with h | h
      · exfalso
        have h5 : (1000 * (k : ℚ)) = (⌊x⌋ : ℚ) := by exact_mod_cast h
        linarith [hk.2]
      · exact ⟨k, by omega⟩
    · rcases (by omega : 1000 * k = ⌊x⌋ ∨ 1000 * k = ⌊x⌋ + 1) with h | h
      · exact ⟨k, by omega⟩
      · exact absurd rfl (by omega : ¬(0 : ℤ) = 0)
    · rcases (by omega : 1000 * k = ⌊x⌋ ∨ 1000 * k = ⌊x⌋ + 1) with h | h
      · exact absurd rfl (by omega : ¬(0 : ℤ) = 0)
      · exact ⟨k, by omega⟩

/-- C1 (amended): the downbeat mask of `aligned_notes2timeline` classifies a
row as a downbeat exactly when its exact beat position lies within `1/2000` of
an integer — i.e. the test is performed on the beat value rounded to 3
decimals, so near-integer non-integer beat positions are also classified as
downbeats. -/
theorem c1_downbeat_rounded_characterization (r : NoteRow) :
    float_is_integer (note_beat_float r) = true ↔
      ∃ k : ℤ, |onset2beat r.mn_onset r.timesig.1 r.timesig.2 1 - k| ≤ 1 / 2000 := by
  set b := onset2beat r.mn_onset r.timesig.1 r.timesig.2 1 with hb
  have h1 : note_beat_float r = (roundHalfEven (b * 1000) : ℚ) / 1000 := by
    unfold note_beat_float onset2beat_rounded round_to_decimals
    rw [← hb]
    norm_num
  rw [h1]
  unfold float_is_integer
  rw [beq_iff_eq, rat_den_one_iff]
  constructor
  · rintro ⟨z, hz⟩
    have hmul : (roundHalfEven (b * 1000) : ℚ) = 1000 * z := by
      field_simp at hz
      linarith
    have hint : roundHalfEven (b * 1000) = 1000 * z := by exact_mod_cast hmul
    obtain ⟨k, hk⟩ := (roundHalfEven_1000_iff (b * 1000)).mp ⟨z, hint⟩
    refine ⟨k, ?_⟩
    have habs : |b * 1000 - 1000 * k| = 1000 * |b - k| := by
      rw [show b * 1000 - 1000 * (k : ℚ) = 1000 * (b - k) by ring, abs_mul]
      norm_num
    rw [habs] at hk
    linarith
  · rintro ⟨k, hk⟩
    have hx : |b * 1000 - 1000 * k| ≤ 1 / 2 := by
      have habs : |b * 1000 - 1000 * (k : ℚ)| = 1000 * |b - k| := by
        rw [show b * 1000 - 1000 * (k : ℚ) = 1000 * (b - k) by ring, abs_mul]
        norm_num
      rw [habs]
      linarith
    obtain ⟨z, hz⟩ := (roundHalfEven_1000_iff (b * 1000)).mpr ⟨k, hx⟩
    refine ⟨z, ?_⟩
    rw [hz]
    push_cast
    ring

/-- C1 counterexample: the onset `1/40000` of a whole note in 4/4 has the exact
beat position `1 + 1/10000`, which is not an integer, yet the classification of
`aligned_notes2timeline` (which rounds to 3 decimals first) marks the row as a
downbeat. -/
theorem c1_counterexample :
    float_is_integer (note_beat_float ⟨1, 1 / 40000, (4, 4)⟩) = true ∧
    (onset2beat (1 / 40000) 4 4 1).den ≠ 1 := by
  have hsize : ts_beat_size 4 4 = 1 / 4 := by
    norm_num [ts_beat_size, _ts_beat_size]
  have hne : ts_beat_size 4 4 ≠ 0 := by rw [hsize]; norm_num
  have hb : onset2beat (1 / 40000) 4 4 1 = 10001 / 10000 := by
    rw [onset2beat_eq_div _ _ _ _ hne, hsize]
    norm_num
  constructor
  · have h1 : note_beat_float ⟨1, 1 / 40000, (4, 4)⟩ =
        (roundHalfEven ((10001 / 10000 : ℚ) * 10 ^ 3) : ℚ) / 10 ^ 3 := by
      unfold note_beat_float onset2beat_rounded round_to_decimals
      rw [show (⟨1, 1 / 40000, (4, 4)⟩ : NoteRow).mn_onset = 1 / 40000 from rfl]
      rw [show (⟨1, 1 / 40000, (4, 4)⟩ : NoteRow).timesig = (4, 4) from rfl]
      rw [hb]
    rw [h1]
    have harg : (10001 / 10000 : ℚ) * 10 ^ 3 = 10001 / 10 := by norm_num
    rw [harg]
    have hfl : ⌊(10001 / 10 : ℚ)⌋ = 1000 := by norm_num
    have hrhe : roundHalfEven (10001 / 10 : ℚ) = 1000 := by
      unfold roundHalfEven
      rw [hfl]
      norm_num
    rw [hrhe]
    norm_num [float_is_integer]
  · rw [hb]
    intro h
    obtain ⟨z, hz⟩ := (rat_den_one_iff _).mp h
    rw [div_eq_iff (by norm_num : (10000 : ℚ) ≠ 0)] at hz
    have hzint : (10001 : ℤ) = z * 10000 := by exact_mod_cast hz
    omega

theorem mem_zipWith_start {rows : List ORow} {starts : List (Option ℚ)} {r : ORow}
    (h : r ∈ List.zipWith (fun (a : ORow) s => { a with start := s }) rows starts) :
    ∃ a ∈ rows, r.mn = a.mn ∧ r.beat = a.beat := by
  induction rows generalizing starts with
  | nil => simp at h
  | cons a as ih =>
    cases starts with
    | nil => simp at h
    | cons s ss =>
      rw [List.zipWith_cons_cons, List.mem_cons] at h
      rcases h with h | h
      · exact ⟨a, by simp, by rw [h], by rw [h]⟩
      · obtain ⟨b, hb, h1, h2⟩ := ih h
        exact ⟨b, by simp [hb], h1, h2⟩

theorem mem_mergeLeftTimeline {tl : List TLRow} {grid : List (ℕ × Option ℕ)}
    {r : ORow} (h : r ∈ mergeLeftTimeline tl grid) :
    ∃ kb ∈ grid, r.mn = kb.1 ∧ r.beat = kb.2 := by
  unfold mergeLeftTimeline at h
  rw [List.mem_flatMap] at h
  obtain ⟨kb, hkb, hr⟩ := h
  refine ⟨kb, hkb, ?_⟩
  simp only [] at hr
  split at hr
  · rw [List.mem_singleton] at hr
    rw [hr]
    exact ⟨rfl, rfl⟩
  · rw [List.mem_map] at hr
    obtain ⟨a, _, ha⟩ := hr
    rw [← ha]
    exact ⟨rfl, rfl⟩

theorem grid_zero_beat {tl : List TLRow} {kb : ℕ × Option ℕ}
    (h : kb ∈ completeBeatGrid tl) (h0 : kb.1 = 0) : kb.2 = none := by
  unfold completeBeatGrid at h
  rw [List.mem_flatMap] at h
  obtain ⟨k, _, hkb⟩ := h
  rw [List.mem_map] at hkb
  obtain ⟨b, hb, hkbe⟩ := hkb
  have hk0 : k = 0 := by rw [← hkbe] at h0; exact h0
  subst hk0
  have hz : n_expected_beats tl 0 = 0 := by simp [n_expected_beats]
  rw [hz] at hb
  unfold gridBeats at hb
  rw [if_pos le_rfl, List.mem_singleton] at hb
  rw [← hkbe, hb]

/-- C2 (amended): the expected beat count of the anacrusis measure 0 is forced
to 0 — not to the number of observed beats — so the anacrusis itself never
triggers beat padding; but whenever any measure requires interpolation, the
rebuilt table contains only null-beat rows for measure 0, so the anacrusis's
observed rows are not preserved. -/
theorem c2_anacrusis_forced_zero (tl : List TLRow) :
    n_expected_beats tl 0 = 0 ∧
    (groupRows tl 0 ≠ [] → n_missing_beats tl 0 < 0) ∧
    (∀ out, interpolate_missing_beats tl = Except.ok out →
      needsCorrection tl = true → ∀ r ∈ out, r.mn = 0 → r.beat = none) := by
  refine ⟨by simp [n_expected_beats], ?_, ?_⟩
  · intro hne
    have hpos : 0 < nPresentBeats tl 0 := by
      rw [nPresentBeats, Finset.card_pos, presentBeats]
      cases hrows : groupRows tl 0 with
      | nil => exact absurd hrows hne
      | cons a as => exact ⟨a.beat, by simp [hrows]⟩
    have hz : n_expected_beats tl 0 = 0 := by simp [n_expected_beats]
    rw [n_missing_beats, hz]
    omega
  · intro out hok hcorr r hr h0
    unfold interpolate_missing_beats at hok
    split at hok
    · exact absurd hok (by simp)
    split at hok
    · exact absurd hok (by simp)
    split at hok
    · rename_i hcf
      rw [hcorr] at hcf
      simp at hcf
    · have hout : out = interpolatedRows tl := by
        injection hok with h
        exact h.symm
      subst hout
      unfold interpolatedRows at hr
      obtain ⟨a, ha, hmn, hbeat⟩ := mem_zipWith_start hr
      obtain ⟨kb, hkb, h1, h2⟩ := mem_mergeLeftTimeline ha
      rw [hbeat, h2]
      exact grid_zero_beat hkb (by rw [← h1, ← hmn, h0])

/-- Witness for C2's amended statement at the concrete timeline `tlC2`:
measure 0's expected beat count is 0 although one beat is observed, and its
missing-beat count is negative. -/
theorem c2_anacrusis_forced_zero_witness :
    n_expected_beats tlC2 0 = 0 ∧ n_missing_beats tlC2 0 < 0 := by
  have h := c2_anacrusis_forced_zero tlC2
  exact ⟨h.1, h.2.1 (by decide)⟩

/-- C2 counterexample: on `tlC2` the expected beat count used for the anacrusis
measure 0 is 0, not the observed count 1, and because measure 1 triggers
interpolation, the observed measure-0 row (beat 1) is absent from the output —
only a null-beat placeholder row remains. -/
theorem c2_counterexample :
    n_expected_beats tlC2 0 = 0 ∧ nPresentBeats tlC2 0 = 1 ∧ (0 : ℤ) ≠ 1 ∧
    interpolate_missing_beats tlC2 = Except.ok outC2 ∧
    (outC2.filter (fun r => r.mn == 0)).map (fun r => r.beat) = [none] := by
  have hkeys : groupKeys tlC2 = [0, 1] := by decide
  have hcons : timesigsConsistent tlC2 = true := by decide
  have hgt0 : groupTimesig tlC2 0 = (4, 4) := by decide
  have hgt1 : groupTimesig tlC2 1 = (4, 4) := by decide
  have hnb : nBeatsOk tlC2 = true := by
    unfold nBeatsOk
    rw [hkeys]
    simp [List.all_cons, hgt0, hgt1, timesig2n_beats_44]
  have hnbt1 : nBeatsTimesig tlC2 1 = 4 := by
    unfold nBeatsTimesig
    rw [hgt1, timesig2n_beats_44]
    rfl
  have hmax1 : maxPresentBeat tlC2 1 = 3 := by decide
  have hexp1 : n_expected_beats tlC2 1 = 4 := by
    unfold n_expected_beats n_expected_beats_pre
    rw [if_neg (by norm_num : ¬(1 : ℕ) = 0), hnbt1, hmax1]
    norm_num
  have hexp0 : n_expected_beats tlC2 0 = 0 := by simp [n_expected_beats]
  have hnpres1 : nPresentBeats tlC2 1 = 2 := by decide
  have hmiss1 : n_missing_beats tlC2 1 = 2 := by
    unfold n_missing_beats
    rw [hexp1, hnpres1]
    norm_num
  have hcorr : needsCorrection tlC2 = true := by
    unfold needsCorrection
    rw [hkeys]
    refine List.any_eq_true.mpr ⟨1, by simp, ?_⟩
    rw [hmiss1]
    norm_num
  have hgrid : completeBeatGrid tlC2 =
      [(0, none), (1, some 1), (1, some 2), (1, some 3), (1, some 4)] := by
    unfold completeBeatGrid
    rw [hkeys]
    simp only [List.flatMap_cons, List.flatMap_nil, hexp0, hexp1]
    decide
  have hmerged : mergedRows tlC2 =
      [⟨0, none, none, none⟩,
       ⟨1, some 1, some 10, some (4, 4)⟩,
       ⟨1, some 2, none, none⟩,
       ⟨1, some 3, some 12, some (4, 4)⟩,
       ⟨1, some 4, none, none⟩] := by
    unfold mergedRows
    rw [hgrid]
    decide
  have hv2 : interpValue [none, some 10, none, some 12, none] 2 =
      some (10 + (((2 : ℕ) : ℚ) - ((1 : ℕ) : ℚ)) * (12 - 10) / (((3 : ℕ) : ℚ) - ((1 : ℕ) : ℚ))) := rfl
  have hv2e : interpValue [none, some 10, none, some 12, none] 2 = some 11 := by
    rw [hv2]
    norm_num
  have hinterp : seriesInterpolate [none, some 10, none, some 12, none] =
      [none, some 10, some 11, some 12, some 12] := by
    unfold seriesInterpolate
    rw [show ([none, some (10 : ℚ), none, some 12, none]).length = 5 from rfl]
    rw [show List.range 5 = [0, 1, 2, 3, 4] from rfl]
    simp only [List.map_cons, List.map_nil]
    rw [hv2e]
    rfl
  have hrows : interpolatedRows tlC2 = outC2 := by
    unfold interpolatedRows
    rw [hmerged]
    rw [show List.map (fun r : ORow => r.start)
        [⟨0, none, none, none⟩,
         ⟨1, some 1, some 10, some (4, 4)⟩,
         ⟨1, some 2, none, none⟩,
         ⟨1, some 3, some 12, some (4, 4)⟩,
         ⟨1, some 4, none, none⟩] = [none, some 10, none, some 12, none] from rfl]
    rw [hinterp]
    decide
  refine ⟨hexp0, by decide, by norm_num, ?_, by decide⟩
  unfold interpolate_missing_beats
  rw [hcons, hnb, hcorr, hrows]
  norm_num

/-- C7: when every measure of the timeline already observes every beat from 1
up to its expected beat count (and beats are at least 1), the correction branch
never fires: `interpolate_missing_beats` returns the input unchanged and every
measure's beat set equals `{1, ..., expectedCount}`. -/
theorem c7_complete_timeline_fixed (tl : List TLRow)
    (hts : timesigsConsistent tl = true) (hnb : nBeatsOk tl = true)
    (hpos : ∀ r ∈ tl, 1 ≤ r.beat)
    (hfull : ∀ k ∈ groupKeys tl,
      Finset.Icc 1 (n_expected_beats_pre tl k).toNat ⊆ presentBeats tl k) :
    interpolate_missing_beats tl = Except.ok (tl.map toORow) ∧
    ∀ k ∈ groupKeys tl,
      presentBeats tl k = Finset.Icc 1 (n_expected_beats_pre tl k).toNat := by
  have hset : ∀ k ∈ groupKeys tl,
      presentBeats tl k = Finset.Icc 1 (n_expected_beats_pre tl k).toNat := by
    intro k hk
    refine Finset.Subset.antisymm ?_ (hfull k hk)
    intro b hb
    rw [presentBeats, List.mem_toFinset, List.mem_map] at hb
    obtain ⟨r, hr, hrb⟩ := hb
    have hrtl : r ∈ tl := List.mem_of_mem_filter hr
    have h1 : 1 ≤ r.beat := hpos r hrtl
    have h2 : b ≤ maxPresentBeat tl k := by
      have hmem : b ∈ presentBeats tl k := by
        rw [presentBeats, List.mem_toFinset, List.mem_map]
        exact ⟨r, hr, hrb⟩
      exact Finset.le_sup (f := id) hmem
    have h3 : (maxPresentBeat tl k : ℤ) ≤ n_expected_beats_pre tl k := le_max_right _ _
    rw [Finset.mem_Icc]
    subst hrb
    omega
  have hnc : needsCorrection tl = false := by
    rw [needsCorrection, List.any_eq_false]
    intro k hk
    simp only [decide_eq_true_eq]
    by_cases hk0 : k = 0
    · subst hk0
      have h0 : n_expected_beats tl 0 = 0 := by simp [n_expected_beats]
      rw [n_missing_beats, h0]
      omega
    · have hpre : (0 : ℤ) ≤ n_expected_beats_pre tl k :=
        le_trans (Int.natCast_nonneg _) (le_max_right _ _)
      have hcard : nPresentBeats tl k = (n_expected_beats_pre tl k).toNat := by
        rw [nPresentBeats, hset k hk, Nat.card_Icc]
        omega
      rw [n_missing_beats, n_expected_beats, if_neg hk0, hcard]
      omega
  refine ⟨?_, hset⟩
  simp [interpolate_missing_beats, hts, hnb, hnc]

/-- Witness for C7 at the complete one-measure timeline `tlC7`. -/
theorem c7_complete_timeline_fixed_witness :
    timesigsConsistent tlC7 = true ∧
    interpolate_missing_beats tlC7 = Except.ok (tlC7.map toORow) := by
  have hgt : groupTimesig tlC7 1 = (4, 4) := by decide
  have hkeys : groupKeys tlC7 = [1] := by decide
  have hnb : nBeatsOk tlC7 = true := by
    unfold nBeatsOk
    rw [hkeys]
    simp [List.all_cons, hgt, timesig2n_beats_44]
  have hpre : n_expected_beats_pre tlC7 1 = 4 := by
    unfold n_expected_beats_pre nBeatsTimesig
    rw [hgt, timesig2n_beats_44, show maxPresentBeat tlC7 1 = 4 from by decide]
    norm_num [Except.toOption]
  have hfull : ∀ k ∈ groupKeys tlC7,
      Finset.Icc 1 (n_expected_beats_pre tlC7 k).toNat ⊆ presentBeats tlC7 k := by
    intro k hk
    rw [hkeys, List.mem_singleton] at hk
    subst hk
    rw [hpre]
    decide
  exact ⟨by decide,
    (c7_complete_timeline_fixed tlC7 (by decide) hnb (by decide) hfull).1⟩

/-- C8: a single 4-beat measure observed only on beats 1 and 3 (with
`start(beat 1) < start(beat 3)`) gets a beat-2 row whose start is the linear
midpoint, strictly between the two observed starts. -/
theorem c8_interpolates_beat2 (s1 s3 : ℚ) (h : s1 < s3) :
    ∃ out x,
      interpolate_missing_beats [⟨1, 1, s1, (4, 4)⟩, ⟨1, 3, s3, (4, 4)⟩] = Except.ok out ∧
      (⟨1, some 2, some x, none⟩ : ORow) ∈ out ∧ s1 < x ∧ x < s3 := by
  set tl : List TLRow := [⟨1, 1, s1, (4, 4)⟩, ⟨1, 3, s3, (4, 4)⟩] with htl
  have hkeys : groupKeys tl = [1] := rfl
  have hgt : groupTimesig tl 1 = (4, 4) := rfl
  have hnbt : nBeatsTimesig tl 1 = 4 := by
    unfold nBeatsTimesig
    rw [hgt, timesig2n_beats_44]
    rfl
  have hmax : maxPresentBeat tl 1 = 3 := rfl
  have hexp : n_expected_beats tl 1 = 4 := by
    unfold n_expected_beats n_expected_beats_pre
    rw [if_neg (by norm_num : ¬(1 : ℕ) = 0), hnbt, hmax]
    norm_num
  have hgrid : completeBeatGrid tl = [(1, some 1), (1, some 2), (1, some 3), (1, some 4)] := by
    unfold completeBeatGrid
    rw [hkeys]
    simp only [List.flatMap_cons, List.flatMap_nil, hexp]
    rfl
  have hmerged : mergedRows tl =
      [⟨1, some 1, some s1, some (4, 4)⟩,
       ⟨1, some 2, none, none⟩,
       ⟨1, some 3, some s3, some (4, 4)⟩,
       ⟨1, some 4, none, none⟩] := by
    unfold mergedRows
    rw [hgrid]
    rfl
  have hv1 : interpValue [some s1, none, some s3, none] 1 =
      some (s1 + (((1 : ℕ) : ℚ) - ((0 : ℕ) : ℚ)) * (s3 - s1) / (((2 : ℕ) : ℚ) - ((0 : ℕ) : ℚ))) := rfl
  have hv1e : interpValue [some s1, none, some s3, none] 1 = some (s1 + (s3 - s1) / 2) := by
    rw [hv1]
    norm_num
  have hinterp : seriesInterpolate [some s1, none, some s3, none] =
      [some s1, some (s1 + (s3 - s1) / 2), some s3, some s3] := by
    unfold seriesInterpolate
    rw [show ([some s1, none, some s3, none]).length = 4 from rfl]
    rw [show List.range 4 = [0, 1, 2, 3] from rfl]
    simp only [List.map_cons, List.map_nil]
    rw [hv1e]
    rfl
  have hrows : interpolatedRows tl =
      [⟨1, some 1, some s1, some (4, 4)⟩,
       ⟨1, some 2, some (s1 + (s3 - s1) / 2), none⟩,
       ⟨1, some 3, some s3, some (4, 4)⟩,
       ⟨1, some 4, some s3, none⟩] := by
    unfold interpolatedRows
    rw [hmerged]
    rw [show List.map (fun r : ORow => r.start)
        [⟨1, some 1, some s1, some (4, 4)⟩,
         ⟨1, some 2, none, none⟩,
         ⟨1, some 3, some s3, some (4, 4)⟩,
         ⟨1, some 4, none, none⟩] = [some s1, none, some s3, none] from rfl]
    rw [hinterp]
    rfl
  have hcons : timesigsConsistent tl = true := rfl
  have hnbok : nBeatsOk tl = true := by
    unfold nBeatsOk
    rw [hkeys]
    simp [List.all_cons, hgt, timesig2n_beats_44]
  have hmiss : n_missing_beats tl 1 = 2 := by
    unfold n_missing_beats
    rw [hexp, show nPresentBeats tl 1 = 2 from rfl]
    norm_num
  have hcorr : needsCorrection tl = true := by
    unfold needsCorrection
    rw [hkeys]
    refine List.any_eq_true.mpr ⟨1, by simp, ?_⟩
    rw [hmiss]
    norm_num
  refine ⟨interpolatedRows tl, s1 + (s3 - s1) / 2, ?_, ?_, by linarith, by linarith⟩
  · simp [interpolate_missing_beats, hcons, hnbok, hcorr]
  · rw [hrows]
    simp

/-- Witness for C8 at the concrete starts 10 and 12. -/
theorem c8_interpolates_beat2_witness :
    (10 : ℚ) < 12 ∧
    ∃ out x,
      interpolate_missing_beats [⟨1, 1, 10, (4, 4)⟩, ⟨1, 3, 12, (4, 4)⟩] = Except.ok out ∧
      (⟨1, some 2, some x, none⟩ : ORow) ∈ out ∧ (10 : ℚ) < x ∧ x < 12 :=
  ⟨by norm_num, c8_interpolates_beat2 10 12 (by norm_num)⟩

theorem range_map_getD {α : Type} (vals : List α) (d : α) :
    (List.range vals.length).map (fun i => vals.getD i d) = vals := by
  induction vals with
  | nil => rfl
  | cons a as ih =>
    rw [List.length_cons, List.range_succ_eq_map, List.map_cons, List.map_map]
    have hc : ((fun i => (a :: as).getD i d) ∘ Nat.succ) = fun i => as.getD i d := by
      funext i
      simp
    rw [hc, ih]
    simp

theorem range_map_getD_comp {α β : Type} (l : List α) (d : α) (g : α → β) :
    (List.range l.length).map (fun i => g (l.getD i d)) = l.map g := by
  conv_rhs => rw [← range_map_getD l d]
  rw [List.map_map]
  rfl

theorem getD_map_lt {α β : Type} (f : α → β) (l : List α) (i : ℕ) (hi : i < l.length)
    (d : α) (d2 : β) : (l.map f).getD i d2 = f (l.getD i d) := by
  rw [List.getD_eq_getElem?_getD, List.getD_eq_getElem?_getD, List.getElem?_map,
    List.getElem?_eq_getElem hi]
  rfl

theorem getD_ge {α : Type} (l : List α) (i : ℕ) (hi : l.length ≤ i) (d : α) :
    l.getD i d = d := by
  rw [List.getD_eq_getElem?_getD, List.getElem?_eq_none hi]
  rfl

theorem getCol_length (f : Frame) (n : String) : (getCol f n).length = f.rows.length := by
  simp [getCol]

theorem setColIfExists_cols (f : Frame) (n : String) (vals : List Cell) :
    (setColIfExists f n vals).cols = f.cols := by
  unfold setColIfExists
  split <;> rfl

theorem setColIfExists_rows_length (f : Frame) (n : String) (vals : List Cell) :
    (setColIfExists f n vals).rows.length = f.rows.length := by
  unfold setColIfExists
  split
  · simp
  · rfl

theorem getCol_setColIfExists_same (f : Frame) (n : String) (vals : List Cell)
    (hn : hasCol f.cols n = true) (hl : vals.length = f.rows.length) :
    getCol (setColIfExists f n vals) n = vals := by
  unfold setColIfExists
  rw [if_pos hn]
  unfold getCol
  simp only [List.map_map]
  have h2 : ((fun r : String → Cell => r n) ∘ fun i =>
      fun m => if m = n then vals.getD i Cell.null else (f.rows.getD i emptyRow) m) =
      fun i => vals.getD i Cell.null := by
    funext i
    simp
  rw [h2, ← hl, range_map_getD]

theorem getCol_setColIfExists_other (f : Frame) (n m : String) (vals : List Cell)
    (hnm : m ≠ n) :
    getCol (setColIfExists f n vals) m = getCol f m := by
  unfold setColIfExists
  split
  · unfold getCol
    simp only [List.map_map]
    have h2 : ((fun r : String → Cell => r m) ∘ fun i =>
        fun x => if x = n then vals.getD i Cell.null else (f.rows.getD i emptyRow) x) =
        fun i => (f.rows.getD i emptyRow) m := by
      funext i
      simp [hnm]
    rw [h2]
    exact range_map_getD_comp f.rows emptyRow (fun r => r m)
  · rfl

theorem shiftNeg1_length (xs : List Cell) : (shiftNeg1 xs).length = xs.length := by
  cases xs with
  | nil => rfl
  | cons a as => simp [shiftNeg1]

theorem fillnaCells_length (xs : List Cell) (v : ℚ) :
    (fillnaCells xs v).length = xs.length := by
  simp [fillnaCells]

theorem update_cols (f : Frame) (D : ℚ) :
    (update_duration_and_end_from_start f D).cols = f.cols := by
  unfold update_duration_and_end_from_start
  rw [setColIfExists_cols, setColIfExists_cols]

theorem update_rows_length (f : Frame) (D : ℚ) :
    (update_duration_and_end_from_start f D).rows.length = f.rows.length := by
  unfold update_duration_and_end_from_start
  rw [setColIfExists_rows_length, setColIfExists_rows_length]

theorem getCol_update_end (f : Frame) (D : ℚ) (hend : hasCol f.cols "end" = true) :
    getCol (update_duration_and_end_from_start f D) "end" =
      fillnaCells (shiftNeg1 (getCol f "start")) D := by
  unfold update_duration_and_end_from_start
  rw [getCol_setColIfExists_other _ _ _ _ (by decide : ("end" : String) ≠ "duration_seconds")]
  exact getCol_setColIfExists_same f "end" _ hend
    (by rw [fillnaCells_length, shiftNeg1_length, getCol_length])

theorem getCol_update_start (f : Frame) (D : ℚ) :
    getCol (update_duration_and_end_from_start f D) "start" = getCol f "start" := by
  unfold update_duration_and_end_from_start
  rw [getCol_setColIfExists_other _ _ _ _ (by decide : ("start" : String) ≠ "duration_seconds"),
    getCol_setColIfExists_other _ _ _ _ (by decide : ("start" : String) ≠ "end")]

theorem getCol_update_other (f : Frame) (D : ℚ) (m : String)
    (h1 : m ≠ "duration_seconds") (h2 : m ≠ "end") :
    getCol (update_duration_and_end_from_start f D) m = getCol f m := by
  unfold update_duration_and_end_from_start
  rw [getCol_setColIfExists_other _ _ _ _ h1, getCol_setColIfExists_other _ _ _ _ h2]

theorem getCol_update_duration (f : Frame) (D : ℚ)
    (hds : hasCol f.cols "duration_seconds" = true) :
    getCol (update_duration_and_end_from_start f D) "duration_seconds" =
      List.zipWith cellSub (getCol (update_duration_and_end_from_start f D) "end")
        (getCol (update_duration_and_end_from_start f D) "start") := by
  conv_rhs =>
    rw [show update_duration_and_end_from_start f D = setColIfExists
      (setColIfExists f "end" (fillnaCells (shiftNeg1 (getCol f "start")) D))
      "duration_seconds"
      (List.zipWith cellSub
        (getCol (setColIfExists f "end" (fillnaCells (shiftNeg1 (getCol f "start")) D)) "end")
        (getCol (setColIfExists f "end" (fillnaCells (shiftNeg1 (getCol f "start")) D)) "start"))
      from rfl]
  rw [getCol_setColIfExists_other _ _ _ _ (by decide : ("end" : String) ≠ "duration_seconds"),
    getCol_setColIfExists_other _ _ _ _ (by decide : ("start" : String) ≠ "duration_seconds")]
  unfold update_duration_and_end_from_start
  refine getCol_setColIfExists_same _ _ _ ?_ ?_
  · rw [setColIfExists_cols]
    exact hds
  · rw [List.length_zipWith, getCol_length, getCol_length, Nat.min_self]

theorem fillna_shift_getD (xs : List Cell) (D : ℚ) (i : ℕ)
    (h : i + 1 < xs.length)
    (hnn : xs.getD (i + 1) Cell.null ≠ Cell.null) :
    (fillnaCells (shiftNeg1 xs) D).getD i Cell.null = xs.getD (i + 1) Cell.null := by
  cases xs with
  | nil => simp at h
  | cons a as =>
    have hlen : i < as.length := by
      simp only [List.length_cons] at h
      omega
    rw [show shiftNeg1 (a :: as) = as ++ [Cell.null] from rfl]
    rw [List.getD_cons_succ] at hnn ⊢
    unfold fillnaCells
    have hlhs : ((as ++ [Cell.null]).map
        (fun c => if Cell.isNull c then Cell.num D else c)).getD i Cell.null =
        if Cell.isNull as[i] then Cell.num D else as[i] := by
      rw [List.getD_eq_getElem?_getD, List.getElem?_map, List.getElem?_append_left hlen,
        List.getElem?_eq_getElem hlen]
      rfl
    have hrhs : as.getD i Cell.null = as[i] := by
      rw [List.getD_eq_getElem?_getD, List.getElem?_eq_getElem hlen]
      rfl
    rw [hrhs] at hnn
    rw [hlhs, hrhs]
    cases hval : as[i] with
    | null => exact absurd hval hnn
    | num q => simp [Cell.isNull]
    | str s => simp [Cell.isNull]

theorem fillna_shift_getLast (xs : List Cell) (D : ℚ) (h : xs ≠ []) :
    (fillnaCells (shiftNeg1 xs) D).getLast? = some (Cell.num D) := by
  cases xs with
  | nil => exact absurd rfl h
  | cons a as =>
    rw [show shiftNeg1 (a :: as) = as ++ [Cell.null] from rfl]
    unfold fillnaCells
    rw [List.map_append]
    rw [show List.map (fun c => if Cell.isNull c then Cell.num D else c) [Cell.null] =
      [Cell.num D] from by simp [Cell.isNull]]
    exact List.getLast?_concat _

theorem keepFirstAux_length_le {α κ : Type} [DecidableEq κ] (key : α → κ) :
    ∀ (seen : List κ) (l : List α), (keepFirstAux key seen l).length ≤ l.length := by
  intro seen l
  induction l generalizing seen with
  | nil => simp [keepFirstAux]
  | cons a as ih =>
    unfold keepFirstAux
    split
    · exact le_trans (ih seen) (Nat.le_succ _)
    · simp only [List.length_cons]
      exact Nat.succ_le_succ (ih _)

theorem keepFirstAux_length_map {α κ : Type} [DecidableEq κ] (key : α → κ) :
    ∀ (seen : List κ) (l : List α),
      (keepFirstAux key seen l).length = (keepFirstAux id seen (l.map key)).length := by
  intro seen l
  induction l generalizing seen with
  | nil => rfl
  | cons a as ih =>
    rw [List.map_cons]
    unfold keepFirstAux
    simp only [id]
    split_ifs with hmem
    · exact ih seen
    · simp only [List.length_cons]
      rw [ih (key a :: seen)]

theorem filter_map_comm {α κ : Type} (key : α → κ) (p : κ → Bool) (l : List α) :
    (l.filter (fun a => p (key a))).map key = (l.map key).filter p := by
  induction l with
  | nil => rfl
  | cons a as ih =>
    rw [List.map_cons, List.filter_cons, List.filter_cons]
    by_cases h : p (key a) = true
    · rw [if_pos h, if_pos h, List.map_cons, ih]
    · rw [if_neg h, if_neg h, ih]

theorem pipeline_count_eq {rows1 rows2 : List (String → Cell)}
    (hkey : rows1.map (rowKey ["start", "label"]) = rows2.map (rowKey ["start", "label"])) :
    (keepFirstAux (rowKey ["start", "label"]) []
      (rows1.filter (fun r => !(Cell.isNull (r "label"))))).length =
    (keepFirstAux (rowKey ["start", "label"]) []
      (rows2.filter (fun r => !(Cell.isNull (r "label"))))).length := by
  have hp : ∀ rows : List (String → Cell),
      rows.filter (fun r => !(Cell.isNull (r "label"))) =
      rows.filter (fun r =>
        (fun k : List Cell => !(Cell.isNull (k.getD 1 Cell.null)))
          (rowKey ["start", "label"] r)) := fun rows => rfl
  rw [hp rows1, hp rows2]
  rw [keepFirstAux_length_map (rowKey ["start", "label"]) []
    (rows1.filter (fun r =>
      (fun k : List Cell => !(Cell.isNull (k.getD 1 Cell.null))) (rowKey ["start", "label"] r)))]
  rw [keepFirstAux_length_map (rowKey ["start", "label"]) []
    (rows2.filter (fun r =>
      (fun k : List Cell => !(Cell.isNull (k.getD 1 Cell.null))) (rowKey ["start", "label"] r)))]
  rw [filter_map_comm (rowKey ["start", "label"])
    (fun k : List Cell => !(Cell.isNull (k.getD 1 Cell.null))) rows1]
  rw [filter_map_comm (rowKey ["start", "label"])
    (fun k : List Cell => !(Cell.isNull (k.getD 1 Cell.null))) rows2]
  rw [hkey]

theorem mergeOuterIndex_rows_length (l r : Frame) :
    (mergeOuterIndex l r).rows.length = max l.rows.length r.rows.length := by
  simp [mergeOuterIndex]

/-- C4: without a prior `start` column, `get_original_notes_warped` raises the
pitch-integrity error exactly when the original `midi` column differs from the
warped `pitch` column; when they agree row-by-row it returns normally. -/
theorem c4_pitch_integrity (notes warped : Frame)
    (h1 : hasCol notes.cols "start" = false)
    (h2 : hasCol notes.cols "midi" = true)
    (h3 : hasCol warped.cols "pitch" = true)
    (h4 : hasCol warped.cols "start" = true)
    (h5 : hasCol warped.cols "end" = true) :
    (getCol notes "midi" ≠ getCol warped "pitch" →
      get_original_notes_warped notes warped = Except.error "MIDI values do not match") ∧
    (getCol notes "midi" = getCol warped "pitch" →
      ∃ F, get_original_notes_warped notes warped = Except.ok (false, F)) := by
  unfold get_original_notes_warped
  rw [h1, h2, h3]
  constructor
  · intro hne
    simp only [Bool.not_true, Bool.false_eq_true, if_false]
    rw [if_neg hne]
  · intro heq
    simp only [Bool.not_true, Bool.false_eq_true, if_false]
    rw [if_pos heq]
    refine ⟨concat_axis1 notes ⟨["start", "end"], warped.rows⟩, ?_⟩
    unfold selectCols
    rw [if_pos (by simp [List.all_cons, List.all_nil, h4, h5])]
    rfl

/-- Witness for C4: a midi column of 60 against a shuffled pitch column of 62
triggers the fatal integrity error. -/
theorem c4_pitch_integrity_witness :
    getCol notesC4 "midi" ≠ getCol warpedC4 "pitch" ∧
    get_original_notes_warped notesC4 warpedC4 = Except.error "MIDI values do not match" := by
  have hne : getCol notesC4 "midi" ≠ getCol warpedC4 "pitch" := by
    rw [show getCol notesC4 "midi" = [Cell.num 60] from rfl,
      show getCol warpedC4 "pitch" = [Cell.num 62] from rfl]
    intro hcontra
    simp only [List.cons.injEq, and_true, Cell.num.injEq] at hcontra
    norm_num at hcontra
  exact ⟨hne,
    (c4_pitch_integrity notesC4 warpedC4 (by decide) (by decide) (by decide)
      (by decide) (by decide)).1 hne⟩

/-- C5: when the original notes table already carries a `start` column,
`get_original_notes_warped` warns (flag `true`) and returns the table
unmodified, without attaching the warped columns. -/
theorem c5_prior_alignment_preserved (notes warped : Frame)
    (h : hasCol notes.cols "start" = true) :
    get_original_notes_warped notes warped = Except.ok (true, notes) := by
  unfold get_original_notes_warped
  rw [h]
  rfl

/-- Witness for C5 at a concrete table with a prior `start` column. -/
theorem c5_prior_alignment_preserved_witness :
    hasCol notesC5.cols "start" = true ∧
    get_original_notes_warped notesC5 warpedC4 = Except.ok (true, notesC5) :=
  ⟨by decide, c5_prior_alignment_preserved notesC5 warpedC4 (by decide)⟩

/-- C3 counterexample: on a one-row input, `'compact'` mode returns a non-empty
table whose columns are only `start` and `label` — there is no `end` column at
all, so its last row's end cannot equal the audio duration — and `'extended'`
mode leaves the stale warped duration 5 in `duration_time` although
`end - start = 98` after re-chaining. -/
theorem c3_counterexample :
    (align_warped_notes_labels warpedC3 extendedC3 100 "compact").map (fun f => f.cols) =
      Except.ok ["start", "label"] ∧
    (align_warped_notes_labels warpedC3 extendedC3 100 "compact").map
      (fun f => f.rows.length) = Except.ok 1 ∧
    hasCol ["start", "label"] "end" = false ∧
    (align_warped_notes_labels warpedC3 extendedC3 100 "extended").map
      (fun f => getCol f "duration_time") = Except.ok [Cell.num 5] ∧
    (align_warped_notes_labels warpedC3 extendedC3 100 "extended").map
      (fun f => getCol f "end") = Except.ok [Cell.num 100] ∧
    (align_warped_notes_labels warpedC3 extendedC3 100 "extended").map
      (fun f => getCol f "start") = Except.ok [Cell.num 2] ∧
    cellSub (Cell.num 100) (Cell.num 2) = Cell.num 98 ∧
    Cell.num 5 ≠ Cell.num 98 := by
  refine ⟨rfl, rfl, rfl, rfl, rfl, rfl, ?_, ?_⟩
  · show Cell.num (100 - 2) = Cell.num 98
    norm_num
  · intro hcontra
    simp only [Cell.num.injEq] at hcontra
    norm_num at hcontra

theorem mergeOuterIndex_getCol_left (l r : Frame) (n : String)
    (hn : hasCol l.cols n = true) :
    getCol (mergeOuterIndex l r) n =
      (List.range (max l.rows.length r.rows.length)).map
        (fun i => (l.rows.getD i emptyRow) n) := by
  unfold mergeOuterIndex getCol
  simp only [List.map_map]
  apply List.map_congr_left
  intro i _
  simp [hn]

theorem mergeOuterIndex_getCol_right (l r : Frame) (n : String)
    (hln : hasCol l.cols n = false) (hrn : hasCol r.cols n = true) :
    getCol (mergeOuterIndex l r) n =
      (List.range (max l.rows.length r.rows.length)).map
        (fun i => (r.rows.getD i emptyRow) n) := by
  unfold mergeOuterIndex getCol
  simp only [List.map_map]
  apply List.map_congr_left
  intro i _
  simp [hln, hrn]

theorem zipWith_map_same {α β γ δ : Type} (f : β → γ → δ) (g1 : α → β) (g2 : α → γ)
    (l : List α) :
    List.zipWith f (l.map g1) (l.map g2) = l.map (fun x => f (g1 x) (g2 x)) := by
  induction l with
  | nil => rfl
  | cons a as ih => simp [ih]

theorem map_rowKey_two (F : Frame) :
    F.rows.map (rowKey ["start", "label"]) =
      List.zipWith (fun a b => [a, b]) (getCol F "start") (getCol F "label") := by
  unfold getCol
  rw [zipWith_map_same]
  rfl

theorem getD_rename_apply (wrows : List (String → Cell)) (old new m : String)
    (hm : m ≠ new) (i : ℕ) :
    ((wrows.map (fun r => fun n => if n = new then r old else r n)).getD i emptyRow) m =
      (wrows.getD i emptyRow) m := by
  rcases Nat.lt_or_ge i wrows.length with hlt | hge
  · rw [getD_map_lt _ _ _ hlt emptyRow]
    simp [hm]
  · rw [getD_ge _ _ (by rw [List.length_map]; exact hge), getD_ge _ _ hge]

theorem getD_rename_apply_new (wrows : List (String → Cell)) (old new : String) (i : ℕ) :
    ((wrows.map (fun r => fun n => if n = new then r old else r n)).getD i emptyRow) new =
      (wrows.getD i emptyRow) old := by
  rcases Nat.lt_or_ge i wrows.length with hlt | hge
  · rw [getD_map_lt _ _ _ hlt emptyRow]
    simp
  · rw [getD_ge _ _ (by rw [List.length_map]; exact hge), getD_ge _ _ hge]
    rfl

/-- C3 (amended): after any of the three merge modes the frame-observable
effect of `update_duration_and_end_from_start` is: in `'labels'` mode both
`end` and `duration_seconds` are columns, so `end` is re-chained onto the next
row's `start` (audio duration `D` for the last row) and
`duration_seconds = end - start`; in `'compact'` mode the output has only the
columns `start` and `label`, so no end or duration is recomputed at all; in
`'extended'` mode `end` is re-chained but the duration column
(`duration_time`) keeps the stale warped durations. -/
theorem c3_chaining_by_mode (wrows erows : List (String → Cell)) (D : ℚ)
    (F1 F2 F3 : Frame)
    (h1 : align_warped_notes_labels ⟨warped_schema, wrows⟩ ⟨extended_schema, erows⟩
      D "compact" = Except.ok F1)
    (h2 : align_warped_notes_labels ⟨warped_schema, wrows⟩ ⟨extended_schema, erows⟩
      D "labels" = Except.ok F2)
    (h3 : align_warped_notes_labels ⟨warped_schema, wrows⟩ ⟨extended_schema, erows⟩
      D "extended" = Except.ok F3) :
    F1.cols = ["start", "label"] ∧
    (∀ i, i + 1 < F2.rows.length →
      (getCol F2 "start").getD (i + 1) Cell.null ≠ Cell.null →
      (getCol F2 "end").getD i Cell.null = (getCol F2 "start").getD (i + 1) Cell.null) ∧
    (F2.rows ≠ [] → (getCol F2 "end").getLast? = some (Cell.num D)) ∧
    getCol F2 "duration_seconds" =
      List.zipWith cellSub (getCol F2 "end") (getCol F2 "start") ∧
    hasCol F3.cols "duration_seconds" = false ∧
    (F3.rows ≠ [] → (getCol F3 "end").getLast? = some (Cell.num D)) ∧
    getCol F3 "duration_time" =
      (List.range (max wrows.length erows.length)).map
        (fun i => (wrows.getD i emptyRow) "duration") := by
  have e1 : align_warped_notes_labels ⟨warped_schema, wrows⟩ ⟨extended_schema, erows⟩
      D "compact" = Except.ok (update_duration_and_end_from_start
      ⟨["start", "label"],
       keepFirstAux (rowKey ["start", "label"]) []
         ((mergeOuterIndex ⟨["start"], wrows⟩ ⟨["label"], erows⟩).rows.filter
           (fun r => !(Cell.isNull (r "label"))))⟩ D) := rfl
  have e2 : align_warped_notes_labels ⟨warped_schema, wrows⟩ ⟨extended_schema, erows⟩
      D "labels" = Except.ok (update_duration_and_end_from_start
      ⟨["start", "duration_seconds", "end", "quarterbeats", "duration_qb", "label"],
       keepFirstAux (rowKey ["start", "label"]) []
         ((mergeOuterIndex
             (renameCol ⟨["start", "duration", "end"], wrows⟩ "duration" "duration_seconds")
             ⟨["quarterbeats", "duration_qb", "label"], erows⟩).rows.filter
           (fun r => !(Cell.isNull (r "label"))))⟩ D) := rfl
  have e3 : align_warped_notes_labels ⟨warped_schema, wrows⟩ ⟨extended_schema, erows⟩
      D "extended" = Except.ok (update_duration_and_end_from_start
      (mergeOuterIndex
        (renameCol ⟨["start", "duration", "end"], wrows⟩ "duration" "duration_time")
        ⟨["quarterbeats", "duration_qb", "midi", "label"], erows⟩) D) := rfl
  rw [e1] at h1
  rw [e2] at h2
  rw [e3] at h3
  injection h1 with h1e
  injection h2 with h2e
  injection h3 with h3e
  subst h1e
  subst h2e
  subst h3e
  have hchain2 : getCol (update_duration_and_end_from_start
      ⟨["start", "duration_seconds", "end", "quarterbeats", "duration_qb", "label"],
       keepFirstAux (rowKey ["start", "label"]) []
         ((mergeOuterIndex
             (renameCol ⟨["start", "duration", "end"], wrows⟩ "duration" "duration_seconds")
             ⟨["quarterbeats", "duration_qb", "label"], erows⟩).rows.filter
           (fun r => !(Cell.isNull (r "label"))))⟩ D) "end" =
      fillnaCells (shiftNeg1 (getCol (update_duration_and_end_from_start
      ⟨["start", "duration_seconds", "end", "quarterbeats", "duration_qb", "label"],
       keepFirstAux (rowKey ["start", "label"]) []
         ((mergeOuterIndex
             (renameCol ⟨["start", "duration", "end"], wrows⟩ "duration" "duration_seconds")
             ⟨["quarterbeats", "duration_qb", "label"], erows⟩).rows.filter
           (fun r => !(Cell.isNull (r "label"))))⟩ D) "start")) D := by
    rw [getCol_update_end _ D (by rfl), getCol_update_start]
  have hchain3 : getCol (update_duration_and_end_from_start
      (mergeOuterIndex
        (renameCol ⟨["start", "duration", "end"], wrows⟩ "duration" "duration_time")
        ⟨["quarterbeats", "duration_qb", "midi", "label"], erows⟩) D) "end" =
      fillnaCells (shiftNeg1 (getCol (update_duration_and_end_from_start
      (mergeOuterIndex
        (renameCol ⟨["start", "duration", "end"], wrows⟩ "duration" "duration_time")
        ⟨["quarterbeats", "duration_qb", "midi", "label"], erows⟩) D) "start")) D := by
    rw [getCol_update_end _ D (by rfl), getCol_update_start]
  refine ⟨?_, ?_, ?_, ?_, ?_, ?_, ?_⟩
  · rw [update_cols]
  · intro i hi hnn
    rw [hchain2]
    refine fillna_shift_getD _ D i ?_ hnn
    rw [getCol_length]
    exact hi
  · intro hne
    rw [hchain2]
    refine fillna_shift_getLast _ D ?_
    intro hxnil
    apply hne
    have hlen0 : (getCol (update_duration_and_end_from_start
        ⟨["start", "duration_seconds", "end", "quarterbeats", "duration_qb", "label"],
         keepFirstAux (rowKey ["start", "label"]) []
           ((mergeOuterIndex
               (renameCol ⟨["start", "duration", "end"], wrows⟩ "duration" "duration_seconds")
               ⟨["quarterbeats", "duration_qb", "label"], erows⟩).rows.filter
             (fun r => !(Cell.isNull (r "label"))))⟩ D) "start").length = 0 := by
      rw [hxnil]
      rfl
    rw [getCol_length] at hlen0
    exact List.length_eq_zero.mp hlen0
  · exact getCol_update_duration _ D (by rfl)
  · rw [update_cols]
    rfl
  · intro hne
    rw [hchain3]
    refine fillna_shift_getLast _ D ?_
    intro hxnil
    apply hne
    have hlen0 : (getCol (update_duration_and_end_from_start
        (mergeOuterIndex
          (renameCol ⟨["start", "duration", "end"], wrows⟩ "duration" "duration_time")
          ⟨["quarterbeats", "duration_qb", "midi", "label"], erows⟩) D) "start").length = 0 := by
      rw [hxnil]
      rfl
    rw [getCol_length] at hlen0
    exact List.length_eq_zero.mp hlen0
  · rw [getCol_update_other _ D "duration_time" (by decide) (by decide)]
    rw [mergeOuterIndex_getCol_left _ _ _ (by rfl)]
    rw [show (renameCol ⟨["start", "duration", "end"], wrows⟩ "duration" "duration_time").rows =
      wrows.map (fun r => fun n => if n = "duration_time" then r "duration" else r n) from rfl]
    simp only [List.length_map]
    apply List.map_congr_left
    intro i _
    exact getD_rename_apply_new wrows "duration" "duration_time" i

/-- Witness for C3's amended statement at the one-row frames, discharging the
three mode hypotheses by computation. -/
theorem c3_chaining_by_mode_witness :
    ∃ F1 F2 F3,
      align_warped_notes_labels warpedC3 extendedC3 100 "compact" = Except.ok F1 ∧
      align_warped_notes_labels warpedC3 extendedC3 100 "labels" = Except.ok F2 ∧
      align_warped_notes_labels warpedC3 extendedC3 100 "extended" = Except.ok F3 ∧
      F1.cols = ["start", "label"] ∧
      getCol F2 "duration_seconds" =
        List.zipWith cellSub (getCol F2 "end") (getCol F2 "start") ∧
      (F3.rows ≠ [] → (getCol F3 "end").getLast? = some (Cell.num 100)) := by
  have h := c3_chaining_by_mode [wRow1] [eRow1] 100 _ _ _ rfl rfl rfl
  exact ⟨_, _, _, rfl, rfl, rfl, h.1, h.2.2.2.1, h.2.2.2.2.2.1⟩

/-- C9: for the same pair of input tables and any audio duration, the
`'compact'` row count is at most (in fact equal to) the `'labels'` row count,
which is at most the `'extended'` row count — extended never drops unlabeled
rows. -/
theorem c9_mode_row_counts (wrows erows : List (String → Cell)) (D : ℚ) :
    ∃ F1 F2 F3,
      align_warped_notes_labels ⟨warped_schema, wrows⟩ ⟨extended_schema, erows⟩
        D "compact" = Except.ok F1 ∧
      align_warped_notes_labels ⟨warped_schema, wrows⟩ ⟨extended_schema, erows⟩
        D "labels" = Except.ok F2 ∧
      align_warped_notes_labels ⟨warped_schema, wrows⟩ ⟨extended_schema, erows⟩
        D "extended" = Except.ok F3 ∧
      F1.rows.length ≤ F2.rows.length ∧ F2.rows.length ≤ F3.rows.length := by
  refine ⟨update_duration_and_end_from_start
      ⟨["start", "label"],
       keepFirstAux (rowKey ["start", "label"]) []
         ((mergeOuterIndex ⟨["start"], wrows⟩ ⟨["label"], erows⟩).rows.filter
           (fun r => !(Cell.isNull (r "label"))))⟩ D,
    update_duration_and_end_from_start
      ⟨["start", "duration_seconds", "end", "quarterbeats", "duration_qb", "label"],
       keepFirstAux (rowKey ["start", "label"]) []
         ((mergeOuterIndex
             (renameCol ⟨["start", "duration", "end"], wrows⟩ "duration" "duration_seconds")
             ⟨["quarterbeats", "duration_qb", "label"], erows⟩).rows.filter
           (fun r => !(Cell.isNull (r "label"))))⟩ D,
    update_duration_and_end_from_start
      (mergeOuterIndex
        (renameCol ⟨["start", "duration", "end"], wrows⟩ "duration" "duration_time")
        ⟨["quarterbeats", "duration_qb", "midi", "label"], erows⟩) D,
    rfl, rfl, rfl, ?_, ?_⟩
  · rw [update_rows_length, update_rows_length]
    apply le_of_eq
    apply pipeline_count_eq
    rw [map_rowKey_two (mergeOuterIndex ⟨["start"], wrows⟩ ⟨["label"], erows⟩),
      map_rowKey_two (mergeOuterIndex
        (renameCol ⟨["start", "duration", "end"], wrows⟩ "duration" "duration_seconds")
        ⟨["quarterbeats", "duration_qb", "label"], erows⟩)]
    have hs1 : getCol (mergeOuterIndex ⟨["start"], wrows⟩ ⟨["label"], erows⟩) "start" =
        (List.range (max wrows.length erows.length)).map
          (fun i => (wrows.getD i emptyRow) "start") := by
      rw [mergeOuterIndex_getCol_left _ _ _ (by rfl)]
    have hs2 : getCol (mergeOuterIndex
        (renameCol ⟨["start", "duration", "end"], wrows⟩ "duration" "duration_seconds")
        ⟨["quarterbeats", "duration_qb", "label"], erows⟩) "start" =
        (List.range (max wrows.length erows.length)).map
          (fun i => (wrows.getD i emptyRow) "start") := by
      rw [mergeOuterIndex_getCol_left _ _ _ (by rfl)]
      rw [show (renameCol ⟨["start", "duration", "end"], wrows⟩ "duration"
        "duration_seconds").rows =
        wrows.map (fun r => fun n => if n = "duration_seconds" then r "duration" else r n)
        from rfl]
      simp only [List.length_map]
      apply List.map_congr_left
      intro i _
      exact getD_rename_apply wrows "duration" "duration_seconds" "start" (by decide) i
    have hl1 : getCol (mergeOuterIndex ⟨["start"], wrows⟩ ⟨["label"], erows⟩) "label" =
        (List.range (max wrows.length erows.length)).map
          (fun i => (erows.getD i emptyRow) "label") := by
      rw [mergeOuterIndex_getCol_right _ _ _ (by rfl) (by rfl)]
    have hl2 : getCol (mergeOuterIndex
        (renameCol ⟨["start", "duration", "end"], wrows⟩ "duration" "duration_seconds")
        ⟨["quarterbeats", "duration_qb", "label"], erows⟩) "label" =
        (List.range (max wrows.length erows.length)).map
          (fun i => (erows.getD i emptyRow) "label") := by
      rw [mergeOuterIndex_getCol_right _ _ _ (by rfl) (by rfl)]
      rw [show (renameCol ⟨["start", "duration", "end"], wrows⟩ "duration"
        "duration_seconds").rows =
        wrows.map (fun r => fun n => if n = "duration_seconds" then r "duration" else r n)
        from rfl]
      simp only [List.length_map]
    rw [hs1, hs2, hl1, hl2]
  · rw [update_rows_length, update_rows_length]
    refine le_trans (keepFirstAux_length_le (rowKey ["start", "label"]) [] _) ?_
    refine le_trans (List.length_filter_le _ _) ?_
    rw [mergeOuterIndex_rows_length, mergeOuterIndex_rows_length]
    simp only [renameCol, List.length_map]
    exact le_refl _
